import Mathlib

/-!
Shallow embedding of `src/core_plugins/kibana/public/context/api/utils/sorting.js`.

JavaScript runtime values relevant to the module are modelled by the
inductive type `JSValue`; plain objects are association lists from keys
to values.  The three exported functions `getFirstSortableField`,
`reverseSortDirective` and `reverseSortDirection` are translated directly
from the source, including the lodash helpers they use
(`_.isString`, `_.isPlainObject`, `_.mapValues`, `_.assign`,
`Array.prototype.filter`, property access with `undefined` default).
-/

namespace Sorting

/-- JavaScript-like runtime values, as far as the sorting utilities
inspect them. -/
inductive JSValue : Type where
  | vStr : String → JSValue
  | vNum : Int → JSValue
  | vBool : Bool → JSValue
  | vNull : JSValue
  | vUndefined : JSValue
  | vArr : List JSValue → JSValue
  | vObj : List (String × JSValue) → JSValue
deriving Repr

mutual

/-- Structural equality test for `JSValue`. -/
def beqVal : JSValue → JSValue → Bool
  | JSValue.vStr a, JSValue.vStr b => a == b
  | JSValue.vNum a, JSValue.vNum b => a == b
  | JSValue.vBool a, JSValue.vBool b => a == b
  | JSValue.vNull, JSValue.vNull => true
  | JSValue.vUndefined, JSValue.vUndefined => true
  | JSValue.vArr xs, JSValue.vArr ys => beqValList xs ys
  | JSValue.vObj xs, JSValue.vObj ys => beqValProps xs ys
  | _, _ => false

/-- Structural equality test for lists of `JSValue`. -/
def beqValList : List JSValue → List JSValue → Bool
  | [], [] => true
  | x :: xs, y :: ys => beqVal x y && beqValList xs ys
  | _, _ => false

/-- Structural equality test for key-value lists. -/
def beqValProps : List (String × JSValue) → List (String × JSValue) → Bool
  | [], [] => true
  | (k1, v1) :: xs, (k2, v2) :: ys => k1 == k2 && beqVal v1 v2 && beqValProps xs ys
  | _, _ => false

end

mutual

theorem beqVal_iff : ∀ a b : JSValue, beqVal a b = true ↔ a = b
  | a, b => by
    cases a <;> cases b <;> simp only [beqVal] <;>
      first
        | (simp only [JSValue.vArr.injEq]; exact beqValList_iff _ _)
        | (simp only [JSValue.vObj.injEq]; exact beqValProps_iff _ _)
        | simp

theorem beqValList_iff : ∀ xs ys : List JSValue, beqValList xs ys = true ↔ xs = ys
  | [], [] => by simp [beqValList]
  | [], _ :: _ => by simp [beqValList]
  | _ :: _, [] => by simp [beqValList]
  | x :: xs, y :: ys => by
    simp only [beqValList, Bool.and_eq_true, List.cons.injEq]
    rw [beqVal_iff, beqValList_iff]

theorem beqValProps_iff :
    ∀ xs ys : List (String × JSValue), beqValProps xs ys = true ↔ xs = ys
  | [], [] => by simp [beqValProps]
  | [], _ :: _ => by simp [beqValProps]
  | _ :: _, [] => by simp [beqValProps]
  | (k1, v1) :: xs, (k2, v2) :: ys => by
    simp only [beqValProps, Bool.and_eq_true, List.cons.injEq, Prod.mk.injEq,
      beq_iff_eq]
    rw [beqVal_iff, beqValProps_iff]

end

instance : DecidableEq JSValue :=
  fun a b => decidable_of_iff (beqVal a b = true) (beqVal_iff a b)

/-- lodash `_.isString`. -/
def isString : JSValue → Bool
  | JSValue.vStr _ => true
  | _ => false

/-- lodash `_.isPlainObject`: true exactly on plain key-value objects
(not arrays, not primitives, not `null`). -/
def isPlainObject : JSValue → Bool
  | JSValue.vObj _ => true
  | _ => false

/-- JavaScript property read `obj[key]`: the value stored under the first
occurrence of the key, or `undefined` when the key is absent. -/
def getProp : List (String × JSValue) → String → JSValue
  | [], _ => JSValue.vUndefined
  | p :: ps, k => if p.1 = k then p.2 else getProp ps k

/-- The effect of lodash `_.assign({}, obj, {key: v})` on the key list of a
plain object: overwrite the value stored under the key when present,
otherwise append the key at the end. -/
def setProp (props : List (String × JSValue)) (k : String) (v : JSValue) :
    List (String × JSValue) :=
  if props.any (fun p => p.1 = k) then
    props.map (fun p => if p.1 = k then (p.1, v) else p)
  else
    props ++ [(k, v)]

/-- `getProp` returns either `undefined` or a value stored in the object,
so it is smaller than the object itself. -/
theorem sizeOf_getProp_lt (props : List (String × JSValue)) (k : String) :
    sizeOf (getProp props k) < 1 + sizeOf props := by
  induction props with
  | nil => simp [getProp]
  | cons p ps ih =>
    simp only [getProp]
    split
    · obtain ⟨k', v'⟩ := p
      simp
      omega
    · simp
      omega

/--
```js
function reverseSortDirection(sortDirection) {
  if (_.isPlainObject(sortDirection)) {
    return _.assign({}, sortDirection, {
      order: reverseSortDirection(sortDirection.order),
    });
  } else {
    return (sortDirection === 'asc' ? 'desc' : 'asc');
  }
}
```
-/
def reverseSortDirection : JSValue → JSValue
  | JSValue.vObj props =>
      JSValue.vObj (setProp props "order" (reverseSortDirection (getProp props "order")))
  | JSValue.vStr "asc" => JSValue.vStr "desc"
  | _ => JSValue.vStr "asc"
termination_by v => sizeOf v
decreasing_by
  simp_wf
  have h := sizeOf_getProp_lt props "order"
  omega

/--
```js
function reverseSortDirective(sortDirective) {
  if (_.isString(sortDirective)) {
    return {
      [sortDirective]: (sortDirective === '_score' ? 'asc' : 'desc'),
    };
  } else if (_.isPlainObject(sortDirective)) {
    return _.mapValues(sortDirective, reverseSortDirection);
  } else {
    return sortDirective;
  }
}
```
-/
def reverseSortDirective : JSValue → JSValue
  | JSValue.vStr s =>
      JSValue.vObj [(s, JSValue.vStr (if s = "_score" then "asc" else "desc"))]
  | JSValue.vObj props =>
      JSValue.vObj (props.map (fun p => (p.1, reverseSortDirection p.2)))
  | v => v

/-- Field metadata as read by the module: only the `sortable` flag is
inspected. -/
structure FieldInfo where
  sortable : Bool
deriving DecidableEq, Repr

/-- The `fields` collaborator of an index pattern: a by-name map of field
metadata, modelled as an association list. -/
structure IndexPatternFields where
  byName : List (String × FieldInfo)
deriving DecidableEq, Repr

/-- The slice of an index pattern that `getFirstSortableField` reads. -/
structure IndexPattern where
  fields : IndexPatternFields
deriving DecidableEq, Repr

/-- `const META_FIELD_NAMES = ['_seq_no', '_doc', '_uid'];` -/
def META_FIELD_NAMES : List String := ["_seq_no", "_doc", "_uid"]

/-- JavaScript `indexPattern.fields.byName[fieldName]`: `some` metadata
when the name is present, `none` (undefined) otherwise. -/
def lookupByName (byName : List (String × FieldInfo)) (name : String) :
    Option FieldInfo :=
  (byName.find? (fun p => p.1 == name)).map Prod.snd

/-- The filter predicate of `getFirstSortableField`:
`META_FIELD_NAMES.includes(fieldName)
 || (indexPattern.fields.byName[fieldName] || { sortable: false }).sortable`. -/
def isSortableField (indexPattern : IndexPattern) (fieldName : String) : Bool :=
  META_FIELD_NAMES.contains fieldName
    || (match lookupByName indexPattern.fields.byName fieldName with
        | some info => info.sortable
        | none => false)

/--
```js
function getFirstSortableField(indexPattern, fieldNames) {
  const sortableFields = fieldNames.filter((fieldName) => (
    META_FIELD_NAMES.includes(fieldName)
    || (indexPattern.fields.byName[fieldName] || { sortable: false }).sortable
  ));
  return sortableFields[0];
}
```
`sortableFields[0]` is `undefined` on an empty array, hence `Option`. -/
def getFirstSortableField (indexPattern : IndexPattern) (fieldNames : List String) :
    Option String :=
  (fieldNames.filter (fun fieldName => isSortableField indexPattern fieldName)).head?

/-- The index pattern of the spec's worked example: field `a` not sortable,
field `b` sortable. -/
def exampleIndexPattern : IndexPattern :=
  { fields := { byName := [("a", { sortable := false }), ("b", { sortable := true })] } }

/-! ### Unfolding lemmas for `reverseSortDirection` -/

/-- Object branch of `reverseSortDirection`. -/
theorem reverseSortDirection_vObj (props : List (String × JSValue)) :
    reverseSortDirection (JSValue.vObj props) =
      JSValue.vObj (setProp props "order" (reverseSortDirection (getProp props "order"))) := by
  rw [reverseSortDirection]

/-- Non-object branch of `reverseSortDirection`: strict comparison with the
ascending token. -/
theorem reverseSortDirection_not_obj (v : JSValue) (h : isPlainObject v = false) :
    reverseSortDirection v =
      if v = JSValue.vStr "asc" then JSValue.vStr "desc" else JSValue.vStr "asc" := by
  rw [reverseSortDirection.eq_def]
  split
  · simp [isPlainObject] at h
  · simp
  · next hobj hasc => rw [if_neg hasc]

/-- Reversing the ascending token yields the descending token. -/
theorem reverseSortDirection_asc :
    reverseSortDirection (JSValue.vStr "asc") = JSValue.vStr "desc" := by
  rw [reverseSortDirection_not_obj (JSValue.vStr "asc") rfl]
  simp

/-- Reversing the descending token yields the ascending token. -/
theorem reverseSortDirection_desc :
    reverseSortDirection (JSValue.vStr "desc") = JSValue.vStr "asc" := by
  rw [reverseSortDirection_not_obj (JSValue.vStr "desc") rfl]
  simp

/-- Reversing `undefined` yields the ascending token. -/
theorem reverseSortDirection_undefined :
    reverseSortDirection JSValue.vUndefined = JSValue.vStr "asc" := by
  rw [reverseSortDirection_not_obj JSValue.vUndefined rfl]
  simp

/-! ### Lemmas about `getProp` and `setProp` -/

/-- A key absent from the object reads as `undefined`. -/
theorem getProp_not_mem (props : List (String × JSValue)) (k : String)
    (h : ∀ p ∈ props, p.1 ≠ k) : getProp props k = JSValue.vUndefined := by
  induction props with
  | nil => rfl
  | cons p ps ih =>
    have hp := h p (List.mem_cons_self p ps)
    simp only [getProp, if_neg hp]
    exact ih fun q hq => h q (List.mem_cons_of_mem p hq)

/-- When the key is absent from the object, `setProp` appends it. -/
theorem setProp_not_mem (props : List (String × JSValue)) (k : String) (v : JSValue)
    (h : ∀ p ∈ props, p.1 ≠ k) : setProp props k v = props ++ [(k, v)] := by
  have hany : (props.any fun p => decide (p.1 = k)) = false := by
    simp only [List.any_eq_false, decide_eq_true_eq]
    exact h
  unfold setProp
  simp [hany]

/-- Overwriting an existing key in place: reading that key returns the new
value. -/
theorem getProp_map_set_self (props : List (String × JSValue)) (k : String) (v : JSValue)
    (hany : (props.any fun p => decide (p.1 = k)) = true) :
    getProp (props.map (fun p => if p.1 = k then (p.1, v) else p)) k = v := by
  induction props with
  | nil => simp at hany
  | cons p ps ih =>
    simp only [List.map_cons]
    by_cases hp : p.1 = k
    · rw [if_pos hp]
      simp only [getProp, if_pos hp]
    · rw [if_neg hp]
      simp only [getProp, if_neg hp]
      simp only [List.any_cons, Bool.or_eq_true, decide_eq_true_eq] at hany
      rcases hany with hk | hany
      · exact absurd hk hp
      · exact ih hany

/-- Reading a key just appended at the end of an object where it was
absent returns the appended value. -/
theorem getProp_append_single_self (props : List (String × JSValue)) (k : String)
    (v : JSValue) (h : ∀ p ∈ props, p.1 ≠ k) : getProp (props ++ [(k, v)]) k = v := by
  induction props with
  | nil => simp [getProp]
  | cons p ps ih =>
    have hp : p.1 ≠ k := h p (List.mem_cons_self p ps)
    simp only [List.cons_append, getProp, if_neg hp]
    exact ih fun q hq => h q (List.mem_cons_of_mem p hq)

/-- Reading the key just written by `setProp` returns the written value. -/
theorem getProp_setProp_self (props : List (String × JSValue)) (k : String) (v : JSValue) :
    getProp (setProp props k v) k = v := by
  unfold setProp
  split
  · next hany => exact getProp_map_set_self props k v hany
  · next hany =>
    refine getProp_append_single_self props k v ?_
    intro p hp
    simp only [List.any_eq_true, decide_eq_true_eq, not_exists] at hany
    push_neg at hany
    exact hany p hp

/-- Overwriting one key in place leaves reads of every other key
unchanged. -/
theorem getProp_map_set_ne (props : List (String × JSValue)) (k k' : String) (v : JSValue)
    (hne' : k ≠ k') :
    getProp (props.map (fun p => if p.1 = k then (p.1, v) else p)) k' = getProp props k' := by
  induction props with
  | nil => rfl
  | cons p ps ih =>
    simp only [List.map_cons]
    by_cases hp : p.1 = k
    · rw [if_pos hp]
      have hpk' : p.1 ≠ k' := by rw [hp]; exact hne'
      simp only [getProp, if_neg hpk']
      exact ih
    · rw [if_neg hp]
      by_cases hp' : p.1 = k'
      · simp only [getProp, if_pos hp']
      · simp only [getProp, if_neg hp']
        exact ih

/-- Appending a fresh key at the end leaves reads of every other key
unchanged. -/
theorem getProp_append_single_ne (props : List (String × JSValue)) (k k' : String)
    (v : JSValue) (hne' : k ≠ k') : getProp (props ++ [(k, v)]) k' = getProp props k' := by
  induction props with
  | nil => simp [getProp, if_neg hne']
  | cons p ps ih =>
    simp only [List.cons_append, getProp]
    by_cases hp' : p.1 = k'
    · rw [if_pos hp', if_pos hp']
    · rw [if_neg hp', if_neg hp']
      exact ih

/-- Writing one key with `setProp` leaves reads of every other key
unchanged. -/
theorem getProp_setProp_ne (props : List (String × JSValue)) (k k' : String) (v : JSValue)
    (hne : k' ≠ k) : getProp (setProp props k v) k' = getProp props k' := by
  have hne' : k ≠ k' := fun hEq => hne hEq.symm
  unfold setProp
  split
  · exact getProp_map_set_ne props k k' v hne'
  · exact getProp_append_single_ne props k k' v hne'

/-- The two plain direction tokens. -/
def isPlainToken : JSValue → Bool
  | JSValue.vStr s => s == "asc" || s == "desc"
  | _ => false

/-- A value satisfying `isPlainToken` is one of the two token strings. -/
theorem isPlainToken_eq (v : JSValue) (h : isPlainToken v = true) :
    v = JSValue.vStr "asc" ∨ v = JSValue.vStr "desc" := by
  cases v
  case vStr s =>
    simp only [isPlainToken, Bool.or_eq_true, beq_iff_eq] at h
    rcases h with h | h
    · left
      rw [h]
    · right
      rw [h]
  all_goals simp [isPlainToken] at h

/-!  ## Claim theorems -/

/-- C1: for every index schema and ordered candidate sequence,
`getFirstSortableField` returns the first name in sequence order that is
either a meta field or has a schema entry whose sortable flag is true;
it returns `none` when no candidate qualifies (in particular on the
empty sequence); and on the worked example (schema: `a` not sortable,
`b` sortable; candidates `["a", "_doc", "b"]`) the result is `"_doc"`. -/
theorem C1_getFirstSortableField_first_qualifying (indexPattern : IndexPattern)
    (fieldNames : List String) :
    getFirstSortableField indexPattern fieldNames =
      fieldNames.find? (fun fieldName =>
        META_FIELD_NAMES.contains fieldName
          || (match lookupByName indexPattern.fields.byName fieldName with
              | some info => info.sortable
              | none => false)) ∧
    getFirstSortableField indexPattern [] = none ∧
    getFirstSortableField exampleIndexPattern ["a", "_doc", "b"] = some "_doc" :=
  ⟨List.filter_head? _ _, rfl, rfl⟩

/-- C2: double reversal is the identity on object-form directives whose
values are all plain direction tokens, but not on the bare string
`"_score"`, whose first reversal promotes it to object form. -/
theorem C2_reverseSortDirective_involution (props : List (String × JSValue))
    (h : ∀ p ∈ props, isPlainToken p.2 = true) :
    reverseSortDirective (reverseSortDirective (JSValue.vObj props)) = JSValue.vObj props ∧
    reverseSortDirective (reverseSortDirective (JSValue.vStr "_score")) ≠
      JSValue.vStr "_score" := by
  constructor
  · simp only [reverseSortDirective, List.map_map]
    congr 1
    have hmap : ∀ p ∈ props,
        ((fun p : String × JSValue => (p.1, reverseSortDirection p.2)) ∘
          (fun p : String × JSValue => (p.1, reverseSortDirection p.2))) p = p := by
      intro p hp
      obtain ⟨k, val⟩ := p
      rcases isPlainToken_eq val (h ⟨k, val⟩ hp) with htok | htok <;> subst htok <;>
        simp [Function.comp, reverseSortDirection_asc, reverseSortDirection_desc]
    rw [List.map_congr_left hmap]
    simp
  · have h1 : reverseSortDirective (JSValue.vStr "_score") =
        JSValue.vObj [("_score", JSValue.vStr "asc")] := rfl
    have h2 : reverseSortDirective (JSValue.vObj [("_score", JSValue.vStr "asc")]) =
        JSValue.vObj [("_score", reverseSortDirection (JSValue.vStr "asc"))] := rfl
    rw [h1, h2, reverseSortDirection_asc]
    exact fun hEq => JSValue.noConfusion hEq

/-- Witness for C2 at the concrete directive `{field: "asc"}`. -/
theorem C2_witness :
    reverseSortDirective (reverseSortDirective
        (JSValue.vObj [("field", JSValue.vStr "asc")])) =
      JSValue.vObj [("field", JSValue.vStr "asc")] ∧
    reverseSortDirective (reverseSortDirective (JSValue.vStr "_score")) ≠
      JSValue.vStr "_score" :=
  C2_reverseSortDirective_involution [("field", JSValue.vStr "asc")] (by decide)

/-- C3: reversing a string-form directive yields a one-key object mapping
the field name to `"desc"` for every name other than `"_score"`, and to
`"asc"` for `"_score"`. -/
theorem C3_reverseSortDirective_string (s : String) :
    (s ≠ "_score" →
      reverseSortDirective (JSValue.vStr s) = JSValue.vObj [(s, JSValue.vStr "desc")]) ∧
    reverseSortDirective (JSValue.vStr "_score") =
      JSValue.vObj [("_score", JSValue.vStr "asc")] := by
  constructor
  · intro hs
    simp [reverseSortDirective, hs]
  · rfl

/-- Witness for C3 at the concrete field name `"a"`. -/
theorem C3_witness :
    reverseSortDirective (JSValue.vStr "a") = JSValue.vObj [("a", JSValue.vStr "desc")] :=
  (C3_reverseSortDirective_string "a").1 (by decide)

/-- C4: on non-object inputs, `reverseSortDirection` returns `"desc"`
exactly for the literal token `"asc"`, and `"asc"` for every other
non-object input; this branch is total. -/
theorem C4_reverseSortDirection_token (v : JSValue) (h : isPlainObject v = false) :
    (reverseSortDirection v = JSValue.vStr "desc" ↔ v = JSValue.vStr "asc") ∧
    (v ≠ JSValue.vStr "asc" → reverseSortDirection v = JSValue.vStr "asc") := by
  rw [reverseSortDirection_not_obj v h]
  constructor
  · constructor
    · intro hEq
      by_contra hne
      rw [if_neg hne] at hEq
      simp at hEq
    · intro hEq
      rw [if_pos hEq]
  · intro hne
    rw [if_neg hne]

/-- Witness for C4 at the tokens `"desc"` and `"asc"` and at `undefined`. -/
theorem C4_witness :
    reverseSortDirection (JSValue.vStr "desc") = JSValue.vStr "asc" ∧
    reverseSortDirection (JSValue.vStr "asc") = JSValue.vStr "desc" ∧
    reverseSortDirection JSValue.vUndefined = JSValue.vStr "asc" := by
  refine ⟨(C4_reverseSortDirection_token (JSValue.vStr "desc") rfl).2 (by simp),
    (C4_reverseSortDirection_token (JSValue.vStr "asc") rfl).1.mpr rfl,
    (C4_reverseSortDirection_token JSValue.vUndefined rfl).2 (by simp)⟩

/-- C5: reversing an object-form directive yields an object with exactly
the same keys, each value passed through `reverseSortDirection`; in
particular `{field: "asc"}` becomes `{field: "desc"}` and vice versa. -/
theorem C5_reverseSortDirective_object (props : List (String × JSValue)) :
    reverseSortDirective (JSValue.vObj props) =
      JSValue.vObj (props.map (fun p => (p.1, reverseSortDirection p.2))) ∧
    (props.map (fun p => (p.1, reverseSortDirection p.2))).map Prod.fst =
      props.map Prod.fst ∧
    reverseSortDirective (JSValue.vObj [("field", JSValue.vStr "asc")]) =
      JSValue.vObj [("field", JSValue.vStr "desc")] ∧
    reverseSortDirective (JSValue.vObj [("field", JSValue.vStr "desc")]) =
      JSValue.vObj [("field", JSValue.vStr "asc")] := by
  refine ⟨rfl, ?_, ?_, ?_⟩
  · simp [List.map_map, Function.comp]
  · show JSValue.vObj [("field", reverseSortDirection (JSValue.vStr "asc"))] = _
    rw [reverseSortDirection_asc]
  · show JSValue.vObj [("field", reverseSortDirection (JSValue.vStr "desc"))] = _
    rw [reverseSortDirection_desc]

/-- C6: the three meta field names are considered sortable regardless of
schema content, while a candidate with no schema entry that is not a meta
field is treated as not sortable; in both cases no error is raised. -/
theorem C6_meta_fields_sortable (indexPattern : IndexPattern) (name : String) :
    (name ∈ META_FIELD_NAMES →
      isSortableField indexPattern name = true ∧
      getFirstSortableField indexPattern [name] = some name) ∧
    (lookupByName indexPattern.fields.byName name = none → name ∉ META_FIELD_NAMES →
      isSortableField indexPattern name = false ∧
      getFirstSortableField indexPattern [name] = none) := by
  constructor
  · intro hmem
    have hc : META_FIELD_NAMES.contains name = true := by simpa using hmem
    have hs : isSortableField indexPattern name = true := by
      unfold isSortableField
      rw [hc]
      simp
    refine ⟨hs, ?_⟩
    unfold getFirstSortableField
    simp [hs]
  · intro hlook hnm
    have hc : META_FIELD_NAMES.contains name = false := by simpa using hnm
    have hs : isSortableField indexPattern name = false := by
      unfold isSortableField
      rw [hc, hlook]
      simp
    refine ⟨hs, ?_⟩
    unfold getFirstSortableField
    simp [hs]

/-- Witness for C6 at the meta field `"_doc"` and the unknown field
`"zzz"` against the example index pattern. -/
theorem C6_witness :
    (isSortableField exampleIndexPattern "_doc" = true ∧
      getFirstSortableField exampleIndexPattern ["_doc"] = some "_doc") ∧
    (isSortableField exampleIndexPattern "zzz" = false ∧
      getFirstSortableField exampleIndexPattern ["zzz"] = none) :=
  ⟨(C6_meta_fields_sortable exampleIndexPattern "_doc").1 (by decide),
    (C6_meta_fields_sortable exampleIndexPattern "zzz").2 rfl (by decide)⟩

/-- C7: on a plain-object direction value, `reverseSortDirection` yields
an object whose `order` entry is the reversed original `order` value and
whose every other key reads exactly as in the input (shallow copy);
concretely, `{field: {order: "asc", mode: "min"}}` reverses to
`{field: {order: "desc", mode: "min"}}`. -/
theorem C7_reverseSortDirection_frame (props : List (String × JSValue)) :
    (∃ props', reverseSortDirection (JSValue.vObj props) = JSValue.vObj props' ∧
      getProp props' "order" = reverseSortDirection (getProp props "order") ∧
      ∀ k, k ≠ "order" → getProp props' k = getProp props k) ∧
    reverseSortDirective
        (JSValue.vObj [("field",
          JSValue.vObj [("order", JSValue.vStr "asc"), ("mode", JSValue.vStr "min")])]) =
      JSValue.vObj [("field",
        JSValue.vObj [("order", JSValue.vStr "desc"), ("mode", JSValue.vStr "min")])] := by
  constructor
  · refine ⟨setProp props "order" (reverseSortDirection (getProp props "order")),
      reverseSortDirection_vObj props, getProp_setProp_self _ _ _, ?_⟩
    intro k hk
    exact getProp_setProp_ne _ _ _ _ hk
  · simp [reverseSortDirective, reverseSortDirection_vObj, getProp, setProp,
      reverseSortDirection_asc]

/-- Witness for C7: the concrete reversal of
`{field: {order: "asc", mode: "min"}}`. -/
theorem C7_witness :
    reverseSortDirective
        (JSValue.vObj [("field",
          JSValue.vObj [("order", JSValue.vStr "asc"), ("mode", JSValue.vStr "min")])]) =
      JSValue.vObj [("field",
        JSValue.vObj [("order", JSValue.vStr "desc"), ("mode", JSValue.vStr "min")])] :=
  (C7_reverseSortDirection_frame []).2

/-- C8: a directive that is neither a string nor a plain object passes
through `reverseSortDirective` unchanged; no execution path throws, as
both functions are total. -/
theorem C8_reverseSortDirective_passthrough (v : JSValue)
    (h1 : isString v = false) (h2 : isPlainObject v = false) :
    reverseSortDirective v = v := by
  cases v <;> simp_all [isString, isPlainObject, reverseSortDirective]

/-- Witness for C8 at `null`, a number, and an array. -/
theorem C8_witness :
    reverseSortDirective JSValue.vNull = JSValue.vNull ∧
    reverseSortDirective (JSValue.vNum 42) = JSValue.vNum 42 ∧
    reverseSortDirective (JSValue.vArr []) = JSValue.vArr [] :=
  ⟨C8_reverseSortDirective_passthrough JSValue.vNull rfl rfl,
    C8_reverseSortDirective_passthrough (JSValue.vNum 42) rfl rfl,
    C8_reverseSortDirective_passthrough (JSValue.vArr []) rfl rfl⟩

/-- C9: reversing a plain-object direction value that has no `order` key
appends an `order` key whose value is the ascending token (the missing
value, `undefined`, falls into the ascending branch); the result is never
without an `order` key. -/
theorem C9_reverseSortDirection_missing_order (props : List (String × JSValue))
    (h : ∀ p ∈ props, p.1 ≠ "order") :
    reverseSortDirection (JSValue.vObj props) =
      JSValue.vObj (props ++ [("order", JSValue.vStr "asc")]) ∧
    getProp (props ++ [("order", JSValue.vStr "asc")]) "order" = JSValue.vStr "asc" := by
  have hget : getProp props "order" = JSValue.vUndefined := getProp_not_mem props "order" h
  constructor
  · rw [reverseSortDirection_vObj, hget, reverseSortDirection_undefined]
    rw [setProp_not_mem props "order" (JSValue.vStr "asc") h]
  · exact getProp_append_single_self props "order" (JSValue.vStr "asc") h

/-- Witness for C9 at the order-less object `{mode: "min"}`. -/
theorem C9_witness :
    reverseSortDirection (JSValue.vObj [("mode", JSValue.vStr "min")]) =
      JSValue.vObj [("mode", JSValue.vStr "min"), ("order", JSValue.vStr "asc")] ∧
    getProp [("mode", JSValue.vStr "min"), ("order", JSValue.vStr "asc")] "order" =
      JSValue.vStr "asc" :=
  C9_reverseSortDirection_missing_order [("mode", JSValue.vStr "min")] (by decide)

/-- C10: `reverseSortDirection` recurses into a plain-object `order`
value, so nested options structures are reversed one level down as well;
concretely `{order: {order: "asc", mode: "min"}}` reverses to
`{order: {order: "desc", mode: "min"}}`. -/
theorem C10_reverseSortDirection_nested (props inner : List (String × JSValue))
    (h : getProp props "order" = JSValue.vObj inner) :
    (∃ props', reverseSortDirection (JSValue.vObj props) = JSValue.vObj props' ∧
      getProp props' "order" =
        JSValue.vObj (setProp inner "order" (reverseSortDirection (getProp inner "order")))) ∧
    reverseSortDirection
        (JSValue.vObj [("order",
          JSValue.vObj [("order", JSValue.vStr "asc"), ("mode", JSValue.vStr "min")])]) =
      JSValue.vObj [("order",
        JSValue.vObj [("order", JSValue.vStr "desc"), ("mode", JSValue.vStr "min")])] := by
  constructor
  · refine ⟨setProp props "order" (reverseSortDirection (getProp props "order")),
      reverseSortDirection_vObj props, ?_⟩
    rw [getProp_setProp_self, h, reverseSortDirection_vObj]
  · simp [reverseSortDirection_vObj, getProp, setProp, reverseSortDirection_asc]

/-- Witness for C10: the concrete reversal of the depth-two options
structure `{order: {order: "asc", mode: "min"}}`. -/
theorem C10_witness :
    reverseSortDirection
        (JSValue.vObj [("order",
          JSValue.vObj [("order", JSValue.vStr "asc"), ("mode", JSValue.vStr "min")])]) =
      JSValue.vObj [("order",
        JSValue.vObj [("order", JSValue.vStr "desc"), ("mode", JSValue.vStr "min")])] :=
  (C10_reverseSortDirection_nested
    [("order", JSValue.vObj [("order", JSValue.vStr "asc"), ("mode", JSValue.vStr "min")])]
    [("order", JSValue.vStr "asc"), ("mode", JSValue.vStr "min")] rfl).2

end Sorting
